import Mathlib

/-!
Verification of the context-generator's filtering and chunking logic
(`scripts/generate_context_markdown.py`).

The development shallowly embeds the two core components:

* the gitignore-style pattern matcher (`get_gitignore_patterns` /
  `should_ignore`), including the exact regex-string construction the script
  performs (`re.escape`, the two `str.replace` rewrites, the directory /
  basename / root-anchor affixes) and an interpreter for the fragment of
  regular-expression syntax those constructions produce (`.` and `.*` are the
  only metacharacters that survive escaping; everything else appears either
  bare and harmless or as a backslash escape);

* the character-budget chunked assembler (`generate_context_markdown`, the
  main file loop, and `write_part_file`), modelled as a fold over the ordered
  eligible-file list carrying the accumulator state the script mutates
  (current part number, running length, per-part block and file lists,
  flushed parts).

Machine strings are `String`/`List Char`; lengths are `Nat`.  Fallible regex
compilation (`re.compile` can raise `re.error`) is modelled by the parser
`regexParse` returning `Option`: `none` corresponds to `re.error`.
-/

namespace ContextGen

/-- Characters escaped by Python `re.escape` (CPython 3.7+ special set). -/
def isSpecialChar (c : Char) : Bool :=
  c = '(' || c = ')' || c = '[' || c = ']' || c = '{' || c = '}' ||
  c = '?' || c = '*' || c = '+' || c = '-' || c = '|' || c = '^' ||
  c = '$' || c = '\\' || c = '.' || c = '&' || c = '~' || c = '#' ||
  c = ' ' || c = '\t' || c = '\n' || c = '\r' ||
  c = Char.ofNat 11 || c = Char.ofNat 12

/-- Per-character action of `re.escape`: specials get a backslash. -/
def esc0 (c : Char) : List Char :=
  if isSpecialChar c then ['\\', c] else [c]

/-- Concatenation of a per-character expansion over a string, used to model
`re.escape` (and, in proofs, the composite effect of the wildcard rewrites). -/
def unitsMap (f : Char → List Char) : List Char → List Char
  | [] => []
  | c :: cs => f c ++ unitsMap f cs

/-- Model of `re.escape`. -/
def reEscape (s : String) : String :=
  ⟨unitsMap esc0 s.data⟩

/-- Per-character effect of `re.escape` followed by the `\*` to `.*`
rewrite (used to characterize the composite pipeline in proofs). -/
def esc1 (c : Char) : List Char :=
  if c = '*' then ['.', '*']
  else if isSpecialChar c then ['\\', c]
  else [c]

/-- Per-character effect of `re.escape` followed by both wildcard rewrites
(`\*` to `.*`, then `\?` to `.`). -/
def esc2 (c : Char) : List Char :=
  if c = '*' then ['.', '*']
  else if c = '?' then ['.']
  else if isSpecialChar c then ['\\', c]
  else [c]

/-- Worker for leftmost, non-overlapping replacement of the pattern
`p0 :: ps` by `rep` (the semantics of Python `str.replace` on character
lists).  A positive skip count consumes the remaining characters of a
just-replaced occurrence without emitting them. -/
def listReplaceAux (p0 : Char) (ps rep : List Char) :
    Nat → List Char → List Char
  | _, [] => []
  | Nat.succ k, _ :: rest => listReplaceAux p0 ps rep k rest
  | 0, c :: rest =>
    if (p0 :: ps).isPrefixOf (c :: rest) then
      rep ++ listReplaceAux p0 ps rep ps.length rest
    else
      c :: listReplaceAux p0 ps rep 0 rest

/-- Leftmost, non-overlapping replacement of `p0 :: ps` by `rep`. -/
def listReplace (p0 : Char) (ps rep : List Char) (s : List Char) : List Char :=
  listReplaceAux p0 ps rep 0 s

/-- Model of Python `str.replace` (the script only calls it with non-empty
pattern strings; an empty pattern is returned unchanged). -/
def strReplace (s pat rep : String) : String :=
  match pat.data with
  | [] => s
  | p0 :: ps => ⟨listReplace p0 ps rep.data s.data⟩


/-- Model of `str.startswith` as a character-list prefix test. -/
def strStarts (s pre : String) : Bool :=
  pre.data.isPrefixOf s.data

/-- Model of `str.endswith` as a character-list suffix test. -/
def strEnds (s suf : String) : Bool :=
  suf.data.isSuffixOf s.data

/-- Tokens of the regex fragment produced by the script's pattern builder:
a literal character, `.` (any character except newline), or `.*` (any run of
characters not containing a newline). -/
inductive RTok where
  | lit : Char → RTok
  | anyc : RTok
  | star : RTok
deriving DecidableEq, Inhabited

/-- Bare (unescaped) characters that make the produced pattern an invalid
regex where they can occur in it: `re.compile` reports an unterminated or
unbalanced group or set, a dangling repeat, or a stray backslash. -/
def rejectBare (c : Char) : Bool :=
  c = '(' || c = ')' || c = '[' || c = '+' || c = '*' || c = '?' || c = '\\'

/-- Parser for the body of a produced pattern.  `none` models `re.error`: a
dangling backslash, a backslash escape of a character `re.escape` would not
have escaped, or a bare group / set / repeat character is rejected; `.` and
`.*` become wildcard tokens; everything else is a literal. -/
def parseToks : List Char → Option (List RTok)
  | [] => some []
  | ['\\'] => none
  | '\\' :: c :: rest =>
    if isSpecialChar c then (parseToks rest).map (fun ts => RTok.lit c :: ts)
    else none
  | '.' :: '*' :: rest => (parseToks rest).map (fun ts => RTok.star :: ts)
  | '.' :: rest => (parseToks rest).map (fun ts => RTok.anyc :: ts)
  | c :: rest =>
    if rejectBare c then none
    else (parseToks rest).map (fun ts => RTok.lit c :: ts)

/-- Compiled form of a produced pattern: the optional `(^|.*/)` basename
wrapper plus the token list of the body.  (A leading `^` is redundant under
`fullmatch` and is simply consumed.) -/
structure CompiledPat where
  wrap : Bool
  toks : List RTok
deriving DecidableEq, Inhabited

/-- Characters of the `(^|.*/)` basename-wrapper prelude. -/
def wrapMarker : List Char := ['(', '^', '|', '.', '*', '/', ')']

/-- Model of `re.compile` on the pattern strings the script builds:
recognise the wrapper or anchor prelude, then parse the body. -/
def regexParse (p : String) : Option CompiledPat :=
  let cs := p.data
  if wrapMarker.isPrefixOf cs then
    (parseToks (cs.drop 7)).map (fun ts => ⟨true, ts⟩)
  else if ['^'].isPrefixOf cs then
    (parseToks (cs.drop 1)).map (fun ts => ⟨false, ts⟩)
  else
    (parseToks cs).map (fun ts => ⟨false, ts⟩)

/-- Backtracking search for `.*`: try the continuation on the current
suffix, else consume one non-newline character and retry. -/
def suffixAny (f : List Char → Bool) : List Char → Bool
  | [] => f []
  | d :: ds => f (d :: ds) || (d != '\n' && suffixAny f ds)

/-- Matching of a token list against an entire character list (the semantics
of `re.fullmatch` for the fragment; `.` and `.*` do not match newline). -/
def rtMatch : List RTok → List Char → Bool
  | [], s => s.isEmpty
  | RTok.lit c :: ts, s =>
    match s with
    | [] => false
    | d :: ds => c == d && rtMatch ts ds
  | RTok.anyc :: ts, s =>
    match s with
    | [] => false
    | d :: ds => d != '\n' && rtMatch ts ds
  | RTok.star :: ts, s => suffixAny (rtMatch ts) s

/-- Model of `pattern_regex.fullmatch(s)`: the wrapper `(^|.*/)` lets the
body match the whole string or any suffix that follows a `/`. -/
def fullmatchPat (p : CompiledPat) (s : String) : Bool :=
  if p.wrap then
    rtMatch p.toks s.data || rtMatch (RTok.star :: RTok.lit '/' :: p.toks) s.data
  else
    rtMatch p.toks s.data

/-- One compiled ignore rule: the raw compiled-pattern string (the script
later inspects `pattern_regex.pattern` textually) and the negation flag. -/
structure IgnoreRule where
  pattern : String
  negated : Bool
deriving DecidableEq, Inhabited

/-- Whitespace stripped by Python `str.strip()`: exactly the code points on
which CPython `str.isspace()` holds — `\t` through `\r` (9–13), the four
information separators (28–31), space, NEL (133), no-break space (160),
Ogham space mark (5760), the typographic spaces 8192–8202, line and
paragraph separators (8232, 8233), narrow no-break space (8239), medium
mathematical space (8287), and ideographic space (12288). -/
def pyWhitespace (c : Char) : Bool :=
  let n := c.toNat
  (9 ≤ n && n ≤ 13) || (28 ≤ n && n ≤ 31) || n = 32 || n = 133 || n = 160 ||
  n = 5760 || (8192 ≤ n && n ≤ 8202) || n = 8232 || n = 8233 || n = 8239 ||
  n = 8287 || n = 12288

/-- Model of `line.strip()`. -/
def pyStrip (s : String) : String :=
  ⟨((s.data.dropWhile pyWhitespace).reverse.dropWhile pyWhitespace).reverse⟩

/-- Model of `pattern_str.lstrip(r'\/')`: drop leading backslashes and
forward slashes. -/
def lstripSlashes (s : String) : String :=
  ⟨s.data.dropWhile (fun c => c = '\\' || c = '/')⟩

/-- True when the string contains a forward slash. -/
def hasSlashChar (s : String) : Bool :=
  s.data.any (fun c => c == '/')

/-- Pattern construction for one kept (non-blank, non-comment) stripped line,
mirroring the body of the `get_gitignore_patterns` loop: negation strip,
`re.escape`, the `\*` and `\?` rewrites, the directory suffix, the basename
wrapper, and root anchoring. -/
def buildPattern (line : String) : IgnoreRule :=
  let negated := strStarts line "!"
  let l : String := if negated then ⟨line.data.drop 1⟩ else line
  let s1 := reEscape l
  let s2 := strReplace s1 "\\*" ".*"
  let s3 := strReplace s2 "\\?" "."
  let s4 :=
    if strEnds l "/" then s3 ++ ".*"
    else if !hasSlashChar l then "(^|.*/)" ++ s3
    else s3
  let s5 :=
    if strStarts l "/" then "^" ++ lstripSlashes s4
    else s4
  ⟨s5, negated⟩

/-- Model of one iteration of the `get_gitignore_patterns` loop: `none` when
the stripped line is blank or a comment, otherwise the compiled rule. -/
def compileLine (rawLine : String) : Option IgnoreRule :=
  let line := pyStrip rawLine
  if line = "" || strStarts line "#" then none
  else some (buildPattern line)

/-- Model of `get_gitignore_patterns` applied to the lines of the ignore
file (ignoring the raising behaviour, which `compileSucceeds` captures). -/
def getGitignorePatterns (lines : List String) : List IgnoreRule :=
  lines.filterMap compileLine

/-- True when processing the line does not raise: either the line is skipped,
or its built pattern string is a regex `re.compile` accepts. -/
def compileSucceeds (rawLine : String) : Bool :=
  match compileLine rawLine with
  | none => true
  | some r => (regexParse r.pattern).isSome

/-- True when every line of the ignore file compiles without raising; when
false, the script's `get_gitignore_patterns` call aborts the whole run with
an uncaught `re.error`. -/
def gitignoreCompileOk (lines : List String) : Bool :=
  lines.all compileSucceeds

/-- True when the stripped, negation-stripped line starts with `/`
(a root-anchored pattern line). -/
def lineIsAnchored (rawLine : String) : Bool :=
  let line := pyStrip rawLine
  let l : String := if strStarts line "!" then ⟨line.data.drop 1⟩ else line
  strStarts l "/"

/-- Model of `os.path.basename`: everything after the last `/`. -/
def pyBasename (s : String) : String :=
  ⟨((s.data.reverse.takeWhile (fun c => c != '/'))).reverse⟩

/-- Model of one iteration of the `should_ignore` pattern loop: a full-path
match updates the running decision; otherwise, when the compiled pattern's
text (with occurrences of the three characters `.\*` removed) contains no
slash, a basename match updates it; otherwise the decision is kept. -/
def ruleStep (pathStr : String) (acc : Bool) (r : IgnoreRule) : Bool :=
  match regexParse r.pattern with
  | none => acc
  | some p =>
    if fullmatchPat p pathStr then
      if r.negated then false else true
    else if !hasSlashChar (strReplace r.pattern ".\\*" "") then
      if fullmatchPat p (pyBasename pathStr) then
        if r.negated then false else true
      else acc
    else acc

/-- Model of the gitignore-pattern portion of `should_ignore` (step 4):
fold the rules in order over the initial decision `false`. -/
def isExcluded (rules : List IgnoreRule) (pathStr : String) : Bool :=
  rules.foldl (ruleStep pathStr) false

/-- Substring test on character lists (Python `in` on strings). -/
def listIsInfix (pat : List Char) : List Char → Bool
  | [] => pat.isPrefixOf []
  | c :: rest => pat.isPrefixOf (c :: rest) || listIsInfix pat rest

/-- Model of Python `pat in s` for strings. -/
def strContainsSub (s pat : String) : Bool :=
  listIsInfix pat.data s.data

/-- Model of `pathlib.PurePath.stem` for a forward-slash path string. -/
def pathStem (p : String) : String :=
  let nm := (pyBasename p).data
  let i := nm.length - 1 - ((nm.reverse.findIdx (fun c => c == '.')))
  if (nm.contains '.') && 0 < i && i < nm.length - 1 then ⟨nm.take i⟩
  else ⟨nm⟩

/-- Model of `pathlib.PurePath.suffix` for a forward-slash path string. -/
def pathSuffix (p : String) : String :=
  let nm := (pyBasename p).data
  let i := nm.length - 1 - ((nm.reverse.findIdx (fun c => c == '.')))
  if (nm.contains '.') && 0 < i && i < nm.length - 1 then ⟨nm.drop i⟩
  else ""

/-- Path segments of a forward-slash path string. -/
def splitSlash : List Char → List (List Char)
  | [] => [[]]
  | c :: rest =>
    if c = '/' then [] :: splitSlash rest
    else
      match splitSlash rest with
      | [] => [[c]]
      | g :: gs => (c :: g) :: gs

/-- Join path segments with `/`. -/
def joinSlash : List (List Char) → List Char
  | [] => []
  | [g] => g
  | g :: gs => g ++ '/' :: joinSlash gs

/-- Model of `relative_path.parents` for a relative forward-slash path:
every proper ancestor, ending with `.` (the pathlib anchor of a relative
path). -/
def pathParents (p : String) : List String :=
  let segs := splitSlash p.data
  ((List.range segs.length).drop 1).map
    (fun k => ⟨joinSlash (segs.take k)⟩) ++ ["."]

/-- Static configuration `should_ignore` closes over: the output filename,
the generator script's own path relative to the project root, the preamble
documents, the explicit exclusion lists, and the compiled ignore rules. -/
structure IgnoreConfig where
  outputFilename : String
  scriptRelPath : String
  preambleFiles : List String
  filesToExclude : List String
  foldersToExclude : List String
  rules : List IgnoreRule
deriving Inhabited

/-- Model of `should_ignore`: the output-stem substring / own-script /
preamble check, the explicit file list, the folder-ancestor check, then the
gitignore rules. -/
def shouldIgnore (cfg : IgnoreConfig) (relPath : String) : Bool :=
  if strContainsSub relPath (pathStem cfg.outputFilename) ||
     relPath == cfg.scriptRelPath ||
     cfg.preambleFiles.contains relPath then
    true
  else if cfg.filesToExclude.contains relPath then
    true
  else if cfg.foldersToExclude.any
      (fun fld => (pathParents relPath).contains fld || relPath == fld) then
    true
  else
    isExcluded cfg.rules relPath

/-! Chunked assembler (`generate_context_markdown` main loop and
`write_part_file`).  Input is the ordered eligible-file list paired with each
file's text content (content reading is the collaborator the spec scopes
out; every listed file is present).  The two header templates are opaque
configuration strings — the loop only uses their lengths, and
`write_part_file` prepends them verbatim. -/

/-- Configuration of one assembler run. -/
structure AsmConfig where
  outputFilename : String
  maxChars : Nat
  split : Bool
  initHeader : String
  contHeader : String
deriving Inhabited

/-- Language tag inferred from the file path, as in the main loop. -/
def langOf (p : String) : String :=
  if strEnds p ".py" then "python"
  else if strEnds p ".json" then "json"
  else if strEnds p ".md" then "markdown"
  else if p == ".gitignore" then "text"
  else "text"

/-- The formatted Markdown block for one file, exactly the string whose
length the loop uses as `block_size` and whose pieces it appends to
`current_content_for_part`. -/
def formatBlock (p content : String) : String :=
  "### File: `" ++ p ++ "`\n\n```" ++ langOf p ++ "\n" ++ content ++ "\n```\n\n"

/-- One flushed output part, recording what `write_part_file` computes for
it: name, warnings, counts, and the running character count at flush time. -/
structure PartFile where
  partNum : Nat
  filename : String
  blocks : List String
  files : List String
  lenAtFlush : Nat
  isTruncated : Bool
  headerWarning : String
  truncWarning : String
deriving DecidableEq, Inhabited

/-- Output filename of a part: `_part_<k>` is inserted between the stem and
the suffix only when more than one total part was reported to the writer. -/
def partFilename (outputFilename : String) (partNum totalParts : Nat) : String :=
  if totalParts > 1 then
    pathStem outputFilename ++ "_part_" ++ toString partNum ++ pathSuffix outputFilename
  else outputFilename

/-- The part-position notice (`part_header_warning`), emitted only when more
than one total part was reported to the writer. -/
def partHeaderWarning (partNum totalParts : Nat) : String :=
  if totalParts > 1 then
    "\n---\n**This is Part " ++ toString partNum ++ " of " ++ toString totalParts ++
    " of the project context.** Please ensure you provide *all* parts to the AI for complete context. Start with Part 1.\n---\n"
  else ""

/-- The truncation warning, emitted only for truncated parts; the total
eligible-file count is mentioned only when the reported total parts is 1. -/
def truncWarningText (maxChars filesInPart totalFiles totalParts : Nat) : String :=
  "\n---\n**WARNING: Not all code files could be included in this part due to the `max_output_characters` limit (" ++
  toString maxChars ++ " characters).**\n" ++
  "Only " ++ toString filesInPart ++ " code files are present in this part.\n" ++
  (if totalParts = 1 then
    "The project has a total of " ++ toString totalFiles ++ " eligible code files.\n"
   else "") ++
  "Consider increasing `max_output_characters` or utilizing the multi-file output option.\n" ++
  "---\n"

/-- Accumulator state of the main loop: part counter, running length,
current part's blocks and files, all files so far, and flushed parts. -/
structure AsmState where
  partNum : Nat
  curLen : Nat
  curBlocks : List String
  curFiles : List String
  allFiles : List String
  written : List PartFile
deriving Inhabited

/-- Model of `write_part_file`: build the part record from the current
state and the reported truncation flag and total-parts count. -/
def flushPart (cfg : AsmConfig) (total : Nat) (st : AsmState)
    (isTrunc : Bool) (totalParts : Nat) : PartFile :=
  { partNum := st.partNum
    filename := partFilename cfg.outputFilename st.partNum totalParts
    blocks := st.curBlocks
    files := st.curFiles
    lenAtFlush := st.curLen
    isTruncated := isTrunc
    headerWarning := partHeaderWarning st.partNum totalParts
    truncWarning :=
      if isTrunc then
        truncWarningText cfg.maxChars st.curFiles.length total totalParts
      else "" }

/-- Rollover in split mode: flush the current part (reported truncated, with
the total-parts count equal to the current part number), start the next part
with the continuation header's length and cleared lists. -/
def rollOver (cfg : AsmConfig) (total : Nat) (st : AsmState) : AsmState :=
  { partNum := st.partNum + 1
    curLen := cfg.contHeader.length
    curBlocks := []
    curFiles := []
    allFiles := st.allFiles
    written := st.written ++ [flushPart cfg total st true st.partNum] }

/-- Append one file's block to the current part and account its length. -/
def appendBlock (st : AsmState) (p content : String) : AsmState :=
  let b := formatBlock p content
  { st with
    curBlocks := st.curBlocks ++ [b]
    curFiles := st.curFiles ++ [p]
    allFiles := st.allFiles ++ [p]
    curLen := st.curLen + b.length }

/-- One iteration of the main loop on file `(p, content)`: if the block
would exceed the budget, either roll over (split mode) and then append the
triggering block to the fresh part, or stop (`none` models `break`);
otherwise append. -/
def asmStep (cfg : AsmConfig) (total : Nat) (st : AsmState)
    (pc : String × String) : Option AsmState :=
  let bs := (formatBlock pc.1 pc.2).length
  if st.curLen + bs > cfg.maxChars then
    if cfg.split then some (appendBlock (rollOver cfg total st) pc.1 pc.2)
    else none
  else some (appendBlock st pc.1 pc.2)

/-- The main loop over the eligible files; `none` from a step is the
non-split `break`, which abandons the remaining files. -/
def runLoop (cfg : AsmConfig) (total : Nat) (st : AsmState) :
    List (String × String) → AsmState
  | [] => st
  | pc :: rest =>
    match asmStep cfg total st pc with
    | none => st
    | some st1 => runLoop cfg total st1 rest

/-- One full assembler run: start at part 1 with the initial header's
length, fold the loop, and flush the last part when its content list is
non-empty; that final part is reported truncated exactly when some eligible
files were never included and split mode is off. -/
def runAssembler (cfg : AsmConfig) (input : List (String × String)) :
    List PartFile :=
  let total := input.length
  let st0 : AsmState :=
    { partNum := 1, curLen := cfg.initHeader.length, curBlocks := [],
      curFiles := [], allFiles := [], written := [] }
  let st := runLoop cfg total st0 input
  if st.curBlocks.isEmpty then st.written
  else
    st.written ++
      [flushPart cfg total st
        (decide (st.allFiles.length < total) && !cfg.split) st.partNum]

/-- The number of leading files whose blocks fit the budget greedily when
starting from running length `len`: the count stops at the first file whose
block would push the running length beyond `maxChars`.  In non-split mode
this is exactly the set of files the loop appends before `break`. -/
def nonsplitPrefixLen (maxChars : Nat) : Nat → List (String × String) → Nat
  | _, [] => 0
  | len, pc :: rest =>
    let bs := (formatBlock pc.1 pc.2).length
    if len + bs > maxChars then 0
    else nonsplitPrefixLen maxChars (len + bs) rest + 1

/-- Concatenation of the per-part file lists of a run's output. -/
def partsFiles (parts : List PartFile) : List String :=
  (parts.map PartFile.files).flatten

/-- The largest block length occurring in a list of blocks. -/
def maxBlockLen (blocks : List String) : Nat :=
  blocks.foldr (fun b m => max b.length m) 0

/-! Concrete instances used by individual claims. -/

/-- A split-mode run that produces three parts: budget 50, a 10-character
initial header, a 5-character continuation header, three files whose blocks
are 38 characters each. -/
def c1cfg : AsmConfig :=
  { outputFilename := "output/project_context.md", maxChars := 50, split := true,
    initHeader := "0123456789", contHeader := "01234" }

/-- The three eligible files of the `c1cfg` run. -/
def c1input : List (String × String) :=
  [("a", "123456789"), ("b", "123456789"), ("c", "123456789")]

/-- A split-mode run whose continuation header (40 characters) exceeds the
budget (5 characters), so the part that receives the deferred block is
finalized far beyond budget plus one block. -/
def c2cfg : AsmConfig :=
  { outputFilename := "out.md", maxChars := 5, split := true,
    initHeader := "ab", contHeader := "0123456789012345678901234567890123456789" }

/-- The single eligible file of the `c2cfg` run. -/
def c2input : List (String × String) := [("a", "xyz")]

/-- A non-split run whose very first block already exceeds the budget. -/
def c7cfg : AsmConfig :=
  { outputFilename := "out.md", maxChars := 5, split := false,
    initHeader := "ab", contHeader := "cd" }

/-- The single eligible file of the `c7cfg` run. -/
def c7input : List (String × String) := [("a", "xyz")]

/-- A non-split run with three eligible files in which the second block
overflows the budget: 4-character initial header, 38-character blocks,
budget 45. -/
def c7wcfg : AsmConfig :=
  { outputFilename := "out.md", maxChars := 45, split := false,
    initHeader := "0123", contHeader := "cd" }

/-- The three eligible files of the `c7wcfg` run. -/
def c7winput : List (String × String) :=
  [("a", "123456789"), ("b", "123456789"), ("c", "123456789")]

/-- A state whose remaining budget under `c8cfg` is exactly the 32-character
block of the file `("a", "xyz")`. -/
def c8cfg : AsmConfig :=
  { outputFilename := "out.md", maxChars := 40, split := true,
    initHeader := "ab", contHeader := "cd" }

/-- The state reaching exactly the boundary under `c8cfg`. -/
def c8st : AsmState :=
  { partNum := 1, curLen := 8, curBlocks := [], curFiles := [],
    allFiles := [], written := [] }

/-- A split-mode configuration with headers within budget, for exercising
the budget invariant and the split-mode file accounting on a concrete run. -/
def c23cfg : AsmConfig :=
  { outputFilename := "output/project_context.md", maxChars := 60, split := true,
    initHeader := "0123456789", contHeader := "01234" }

/-- Three eligible files for the `c23cfg` run. -/
def c23input : List (String × String) :=
  [("a", "123456789"), ("b", "123456789"), ("c", "123456789")]

/-- The static exclusion configuration of a default run: default output
name, the script's own path, the two standard preamble files, no explicit
exclusions, no ignore rules. -/
def c10cfg : IgnoreConfig :=
  { outputFilename := "output/project_context.md",
    scriptRelPath := "scripts/generate_context_markdown.py",
    preambleFiles := ["README.md", "docs/ai_instructions.md"],
    filesToExclude := [], foldersToExclude := [], rules := [] }

/-- Ignore-file lines with no root-anchored line, used to witness that
compilation succeeds on such inputs. -/
def c9lines : List String :=
  ["# comment", "", "*.log", "!keep.log", "build/", "foo?bar", "data/*.csv"]

/-- Budget invariant carried by the loop: the running length of the part
under construction, and of every flushed part, stays within the budget plus
the largest block of that part. -/
def lenInv (cfg : AsmConfig) (st : AsmState) : Prop :=
  st.curLen ≤ cfg.maxChars + maxBlockLen st.curBlocks ∧
  ∀ part ∈ st.written, part.lenAtFlush ≤ cfg.maxChars + maxBlockLen part.blocks

/-! Theorems for the claims. -/

/-! Equation lemmas for `parseToks` at symbolic heads, and the
characterization of the escape-and-rewrite pipeline as a per-character
expansion, used for the pattern-compilation claim. -/

theorem parseToks_esc (c : Char) (rest : List Char) :
    parseToks ('\\' :: c :: rest)
      = if isSpecialChar c then (parseToks rest).map (fun ts => RTok.lit c :: ts)
        else none := rfl

theorem parseToks_dot_star (rest : List Char) :
    parseToks ('.' :: '*' :: rest)
      = (parseToks rest).map (fun ts => RTok.star :: ts) := rfl

theorem parseToks_bare (c : Char) (rest : List Char) (h1 : c ≠ '\\') (h2 : c ≠ '.') :
    parseToks (c :: rest)
      = if rejectBare c then none
        else (parseToks rest).map (fun ts => RTok.lit c :: ts) := by
  conv_lhs => unfold parseToks
  split
  · rename_i heq; cases heq
  · rename_i heq; injection heq with h _; exact absurd h h1
  · rename_i heq; injection heq with h _; exact absurd h h1
  · rename_i heq; injection heq with h _; exact absurd h h2
  · rename_i heq; injection heq with h _; exact absurd h h2
  · rename_i heq; injection heq with ha hb; subst ha; subst hb; rfl

theorem parseToks_dot_ne (c2 : Char) (rest2 : List Char) (h : c2 ≠ '*') :
    parseToks ('.' :: c2 :: rest2)
      = (parseToks (c2 :: rest2)).map (fun ts => RTok.anyc :: ts) := by
  conv_lhs => unfold parseToks
  split
  · rename_i heq; cases heq
  · rename_i heq; cases heq
  · rename_i heq; injection heq with ha _; cases ha
  · rename_i heq; injection heq with _ hb; injection hb with hb _; exact absurd hb h
  · rename_i heq; injection heq with _ hb; subst hb; rfl
  · rename_i g1 g2 g3 g4 heq
    injection heq with ha _
    exact (g4 ha.symm).elim

theorem not_special_ne {c : Char} (x : Char) (hx : isSpecialChar x = true)
    (h : isSpecialChar c = false) : c ≠ x := by
  intro hh
  rw [hh, hx] at h
  cases h

theorem esc0_no_star_head (cs : List Char) :
    ['*'].isPrefixOf (unitsMap esc0 cs) = false := by
  cases cs with
  | nil => rfl
  | cons c cs =>
    show ['*'].isPrefixOf (esc0 c ++ unitsMap esc0 cs) = false
    by_cases hsp : isSpecialChar c = true
    · simp [esc0, hsp, List.isPrefixOf_cons₂]
    · have hc : c ≠ '*' := not_special_ne '*' (by decide) (by simpa using hsp)
      simp [esc0, hsp, List.isPrefixOf_cons₂,
        beq_eq_false_iff_ne.mpr (fun hh => hc hh.symm)]

theorem replace_star (cs : List Char) :
    listReplaceAux '\\' ['*'] ['.', '*'] 0 (unitsMap esc0 cs) = unitsMap esc1 cs := by
  induction cs with
  | nil => rfl
  | cons c cs ih =>
    show listReplaceAux '\\' ['*'] ['.', '*'] 0 (esc0 c ++ unitsMap esc0 cs)
      = esc1 c ++ unitsMap esc1 cs
    by_cases hstar : c = '*'
    · subst hstar
      rw [show esc0 '*' = ['\\', '*'] from rfl, show esc1 '*' = ['.', '*'] from rfl]
      simp [listReplaceAux, List.isPrefixOf_cons₂, ih]
    · have hbs : ('*' == c) = false := beq_eq_false_iff_ne.mpr (fun hh => hstar hh.symm)
      have hcond2 : List.isPrefixOf ['\\', '*'] (c :: unitsMap esc0 cs) = false := by
        rw [List.isPrefixOf_cons₂]
        by_cases hb : c = '\\'
        · subst hb
          simp [List.isPrefixOf_cons₂, esc0_no_star_head]
        · simp [beq_eq_false_iff_ne.mpr (fun hh => hb hh.symm)]
      by_cases hsp : isSpecialChar c = true
      · rw [show esc0 c = ['\\', c] from by simp [esc0, hsp],
          show esc1 c = ['\\', c] from by simp [esc1, hstar, hsp]]
        simp [listReplaceAux, List.isPrefixOf_cons₂, hbs, hcond2, ih]
      · have hb : c ≠ '\\' := not_special_ne '\\' (by decide) (by simpa using hsp)
        rw [show esc0 c = [c] from by simp [esc0, hsp],
          show esc1 c = [c] from by simp [esc1, hstar, hsp]]
        simp [listReplaceAux, hcond2, ih]

theorem esc1_no_q_head (cs : List Char) :
    ['?'].isPrefixOf (unitsMap esc1 cs) = false := by
  cases cs with
  | nil => rfl
  | cons c cs =>
    show ['?'].isPrefixOf (esc1 c ++ unitsMap esc1 cs) = false
    by_cases hstar : c = '*'
    · subst hstar
      rw [show esc1 '*' = ['.', '*'] from rfl]
      simp [List.isPrefixOf_cons₂]
    · by_cases hsp : isSpecialChar c = true
      · rw [show esc1 c = ['\\', c] from by simp [esc1, hstar, hsp]]
        simp [List.isPrefixOf_cons₂]
      · have hc : c ≠ '?' := not_special_ne '?' (by decide) (by simpa using hsp)
        rw [show esc1 c = [c] from by simp [esc1, hstar, hsp]]
        simp [List.isPrefixOf_cons₂, beq_eq_false_iff_ne.mpr (fun hh => hc hh.symm)]

theorem replace_q (cs : List Char) :
    listReplaceAux '\\' ['?'] ['.'] 0 (unitsMap esc1 cs) = unitsMap esc2 cs := by
  induction cs with
  | nil => rfl
  | cons c cs ih =>
    show listReplaceAux '\\' ['?'] ['.'] 0 (esc1 c ++ unitsMap esc1 cs)
      = esc2 c ++ unitsMap esc2 cs
    by_cases hstar : c = '*'
    · subst hstar
      rw [show esc1 '*' = ['.', '*'] from rfl, show esc2 '*' = ['.', '*'] from rfl]
      simp [listReplaceAux, List.isPrefixOf_cons₂, ih]
    · by_cases hq : c = '?'
      · subst hq
        rw [show esc1 '?' = ['\\', '?'] from rfl, show esc2 '?' = ['.'] from rfl]
        simp [listReplaceAux, List.isPrefixOf_cons₂, ih]
      · have hbq : ('?' == c) = false := beq_eq_false_iff_ne.mpr (fun hh => hq hh.symm)
        have hcond2 : List.isPrefixOf ['\\', '?'] (c :: unitsMap esc1 cs) = false := by
          rw [List.isPrefixOf_cons₂]
          by_cases hb : c = '\\'
          · subst hb
            simp [List.isPrefixOf_cons₂, esc1_no_q_head]
          · simp [beq_eq_false_iff_ne.mpr (fun hh => hb hh.symm)]
        by_cases hsp : isSpecialChar c = true
        · rw [show esc1 c = ['\\', c] from by simp [esc1, hstar, hsp],
            show esc2 c = ['\\', c] from by simp [esc2, hstar, hq, hsp]]
          simp [listReplaceAux, List.isPrefixOf_cons₂, hbq, hcond2, ih]
        · have hb : c ≠ '\\' := not_special_ne '\\' (by decide) (by simpa using hsp)
          rw [show esc1 c = [c] from by simp [esc1, hstar, hsp],
            show esc2 c = [c] from by simp [esc2, hstar, hq, hsp]]
          simp [listReplaceAux, hcond2, ih]

theorem rejectBare_special (c : Char) (h : rejectBare c = true) :
    isSpecialChar c = true := by
  simp only [rejectBare, Bool.or_eq_true, decide_eq_true_eq] at h
  rcases h with ((((((rfl | rfl) | rfl) | rfl) | rfl) | rfl) | rfl) <;> rfl

theorem esc2_head_cases (c : Char) : ∃ d ds, esc2 c = d :: ds ∧
    (d = '.' ∨ d = '\\' ∨ isSpecialChar d = false) := by
  by_cases hstar : c = '*'
  · subst hstar
    exact ⟨'.', ['*'], rfl, Or.inl rfl⟩
  · by_cases hq : c = '?'
    · subst hq
      exact ⟨'.', [], rfl, Or.inl rfl⟩
    · by_cases hsp : isSpecialChar c = true
      · exact ⟨'\\', [c], by simp [esc2, hstar, hq, hsp], Or.inr (Or.inl rfl)⟩
      · exact ⟨c, [], by simp [esc2, hstar, hq, hsp],
          Or.inr (Or.inr (by simpa using hsp))⟩

theorem units_esc2_append_head (cs tail : List Char) (x : Char)
    (hx : isSpecialChar x = true) (hd1 : x ≠ '.') (hd2 : x ≠ '\\')
    (htail : ∀ d, tail.head? = some d → d ≠ x) :
    ∀ d, (unitsMap esc2 cs ++ tail).head? = some d → d ≠ x := by
  cases cs with
  | nil =>
    intro d hd
    simp only [unitsMap, List.nil_append] at hd
    exact htail d hd
  | cons c cs =>
    rcases esc2_head_cases c with ⟨d0, ds, hu, hcls⟩
    intro d hd
    have hh0 : (unitsMap esc2 (c :: cs) ++ tail).head? = some d0 := by
      show ((esc2 c ++ unitsMap esc2 cs) ++ tail).head? = some d0
      rw [hu]
      rfl
    rw [hh0] at hd
    injection hd with hd
    subst hd
    rcases hcls with rfl | rfl | hns
    · exact fun hh => hd1 hh.symm
    · exact fun hh => hd2 hh.symm
    · intro hh
      rw [hh, hx] at hns
      cases hns

theorem parse_units (cs : List Char) (tail : List Char)
    (ht : (parseToks tail).isSome = true)
    (hth : ∀ d, tail.head? = some d → d ≠ '*') :
    (parseToks (unitsMap esc2 cs ++ tail)).isSome = true := by
  induction cs with
  | nil => simpa using ht
  | cons c cs ih =>
    show (parseToks ((esc2 c ++ unitsMap esc2 cs) ++ tail)).isSome = true
    rw [List.append_assoc]
    by_cases hstar : c = '*'
    · subst hstar
      rw [show esc2 '*' = ['.', '*'] from rfl]
      show (parseToks ('.' :: '*' :: (unitsMap esc2 cs ++ tail))).isSome = true
      rw [parseToks_dot_star]
      simpa using ih
    · by_cases hq : c = '?'
      · subst hq
        rw [show esc2 '?' = ['.'] from rfl]
        show (parseToks ('.' :: (unitsMap esc2 cs ++ tail))).isSome = true
        cases hrest : unitsMap esc2 cs ++ tail with
        | nil => rfl
        | cons r rs =>
          have hr : r ≠ '*' := by
            apply units_esc2_append_head cs tail '*' (by decide) (by decide)
              (by decide) hth
            rw [hrest]
            rfl
          rw [parseToks_dot_ne r rs hr, ← hrest]
          simpa using ih
      · by_cases hsp : isSpecialChar c = true
        · rw [show esc2 c = ['\\', c] from by simp [esc2, hstar, hq, hsp]]
          show (parseToks ('\\' :: c :: (unitsMap esc2 cs ++ tail))).isSome = true
          rw [parseToks_esc, if_pos hsp]
          simpa using ih
        · have hb : c ≠ '\\' := not_special_ne '\\' (by decide) (by simpa using hsp)
          have hdot : c ≠ '.' := not_special_ne '.' (by decide) (by simpa using hsp)
          have hrj : rejectBare c = false := by
            cases hr : rejectBare c with
            | false => rfl
            | true => rw [rejectBare_special c hr] at hsp; exact absurd rfl hsp
          rw [show esc2 c = [c] from by simp [esc2, hstar, hq, hsp]]
          show (parseToks (c :: (unitsMap esc2 cs ++ tail))).isSome = true
          rw [parseToks_bare c _ hb hdot, hrj]
          simpa using ih

theorem partsFiles_append (a b : List PartFile) :
    partsFiles (a ++ b) = partsFiles a ++ partsFiles b := by
  simp [partsFiles]

theorem maxBlockLen_single (b : String) : maxBlockLen [b] = b.length := by
  simp [maxBlockLen]

theorem asmStep_lenInv (cfg : AsmConfig) (total : Nat) (st st1 : AsmState)
    (pc : String × String)
    (h2 : cfg.contHeader.length ≤ cfg.maxChars)
    (hst : lenInv cfg st)
    (hstep : asmStep cfg total st pc = some st1) :
    lenInv cfg st1 := by
  unfold asmStep at hstep
  by_cases hov : st.curLen + (formatBlock pc.1 pc.2).length > cfg.maxChars
  · rw [if_pos hov] at hstep
    by_cases hs : cfg.split
    · rw [if_pos hs] at hstep
      cases hstep
      constructor
      · simp only [appendBlock, rollOver, List.nil_append, maxBlockLen_single]
        exact Nat.add_le_add_right h2 _
      · intro part hp
        simp only [appendBlock, rollOver] at hp
        rcases List.mem_append.mp hp with hp | hp
        · exact hst.2 part hp
        · rcases List.mem_singleton.mp hp with rfl
          exact hst.1
    · rw [if_neg hs] at hstep
      cases hstep
  · rw [if_neg hov] at hstep
    cases hstep
    constructor
    · simp only [appendBlock]
      calc st.curLen + (formatBlock pc.1 pc.2).length ≤ cfg.maxChars := by omega
        _ ≤ cfg.maxChars + maxBlockLen (st.curBlocks ++ [formatBlock pc.1 pc.2]) :=
          Nat.le_add_right _ _
    · intro part hp
      exact hst.2 part hp

theorem runLoop_lenInv (cfg : AsmConfig) (total : Nat)
    (h2 : cfg.contHeader.length ≤ cfg.maxChars) :
    ∀ (fs : List (String × String)) (st : AsmState), lenInv cfg st →
      lenInv cfg (runLoop cfg total st fs) := by
  intro fs
  induction fs with
  | nil => intro st hst; exact hst
  | cons pc rest ih =>
    intro st hst
    unfold runLoop
    cases hstep : asmStep cfg total st pc with
    | none => exact hst
    | some st1 => exact ih st1 (asmStep_lenInv cfg total st st1 pc h2 hst hstep)

/-- Claim C2 (amended): provided each of the two part-header templates fits
within the budget, the running character count of every finalized part
exceeds the configured budget by at most the size of the largest block in
that part.  (Without that proviso the claim is false — see the
counterexample — because the block that triggers an overflow is committed
to the fresh part without a second budget check on top of the continuation
header.)  In non-split mode the triggering block and all later files are
dropped, so every finalized part stays within the same bound. -/
theorem claim_C2 (cfg : AsmConfig) (input : List (String × String))
    (h1 : cfg.initHeader.length ≤ cfg.maxChars)
    (h2 : cfg.contHeader.length ≤ cfg.maxChars) :
    ∀ part ∈ runAssembler cfg input,
      part.lenAtFlush ≤ cfg.maxChars + maxBlockLen part.blocks := by
  intro part hp
  unfold runAssembler at hp
  have hinv : lenInv cfg
      (runLoop cfg input.length
        { partNum := 1, curLen := cfg.initHeader.length, curBlocks := [],
          curFiles := [], allFiles := [], written := [] } input) := by
    apply runLoop_lenInv cfg input.length h2
    constructor
    · simpa [maxBlockLen] using h1
    · intro p hp
      simp at hp
  set st := runLoop cfg input.length
    { partNum := 1, curLen := cfg.initHeader.length, curBlocks := [],
      curFiles := [], allFiles := [], written := [] } input with hst
  by_cases he : st.curBlocks.isEmpty
  · rw [if_pos he] at hp
    exact hinv.2 part hp
  · rw [if_neg he] at hp
    rcases List.mem_append.mp hp with hp | hp
    · exact hinv.2 part hp
    · rcases List.mem_singleton.mp hp with rfl
      exact hinv.1

/-- Claim C2 witness: a concrete split run with both headers within budget;
every part of the run satisfies the bound. -/
theorem claim_C2_witness :
    c23cfg.initHeader.length ≤ c23cfg.maxChars ∧
    c23cfg.contHeader.length ≤ c23cfg.maxChars ∧
    ∀ part ∈ runAssembler c23cfg c23input,
      part.lenAtFlush ≤ c23cfg.maxChars + maxBlockLen part.blocks :=
  ⟨by decide, by decide, claim_C2 c23cfg c23input (by decide) (by decide)⟩

theorem runLoop_split_files (cfg : AsmConfig) (total : Nat)
    (hs : cfg.split = true) :
    ∀ (fs : List (String × String)) (st : AsmState),
      partsFiles (runLoop cfg total st fs).written ++
          (runLoop cfg total st fs).curFiles
        = partsFiles st.written ++ st.curFiles ++ fs.map Prod.fst := by
  intro fs
  induction fs with
  | nil => intro st; simp [runLoop]
  | cons pc rest ih =>
    intro st
    unfold runLoop
    unfold asmStep
    by_cases hov : st.curLen + (formatBlock pc.1 pc.2).length > cfg.maxChars
    · rw [if_pos hov, if_pos hs]
      rw [ih]
      simp [appendBlock, rollOver, flushPart, partsFiles_append, partsFiles]
    · rw [if_neg hov]
      rw [ih]
      simp [appendBlock]

theorem runLoop_files_blocks_len (cfg : AsmConfig) (total : Nat) :
    ∀ (fs : List (String × String)) (st : AsmState),
      st.curFiles.length = st.curBlocks.length →
      (runLoop cfg total st fs).curFiles.length
        = (runLoop cfg total st fs).curBlocks.length := by
  intro fs
  induction fs with
  | nil => intro st h; exact h
  | cons pc rest ih =>
    intro st h
    unfold runLoop
    cases hstep : asmStep cfg total st pc with
    | none => exact h
    | some st1 =>
      apply ih
      unfold asmStep at hstep
      by_cases hov : st.curLen + (formatBlock pc.1 pc.2).length > cfg.maxChars
      · rw [if_pos hov] at hstep
        by_cases hsp : cfg.split
        · rw [if_pos hsp] at hstep
          cases hstep
          simp [appendBlock, rollOver]
        · rw [if_neg hsp] at hstep
          cases hstep
      · rw [if_neg hov] at hstep
        cases hstep
        simp [appendBlock, h]

/-- Claim C3 (confirmed): in split mode the concatenation of the per-part
file lists over all emitted parts is exactly the input eligible-file list in
its given (sorted) order — a prefix of it in the trivial, complete sense —
and, when the eligible list has no duplicates, every eligible file appears
exactly once across all parts. -/
theorem claim_C3 (cfg : AsmConfig) (input : List (String × String))
    (hs : cfg.split = true) :
    partsFiles (runAssembler cfg input) = input.map Prod.fst ∧
    ((input.map Prod.fst).Nodup →
      ∀ f ∈ input.map Prod.fst,
        (partsFiles (runAssembler cfg input)).count f = 1) := by
  have hmain : partsFiles (runAssembler cfg input) = input.map Prod.fst := by
    unfold runAssembler
    set st0 : AsmState :=
      { partNum := 1, curLen := cfg.initHeader.length, curBlocks := [],
        curFiles := [], allFiles := [], written := [] } with hst0
    set st := runLoop cfg input.length st0 input with hst
    have hfiles := runLoop_split_files cfg input.length hs input st0
    have hlen := runLoop_files_blocks_len cfg input.length input st0 (by simp [hst0])
    rw [← hst] at hfiles hlen
    simp only [hst0, partsFiles, List.map_nil, List.flatten_nil,
      List.nil_append] at hfiles
    by_cases he : st.curBlocks.isEmpty
    · rw [if_pos he]
      have : st.curFiles = [] := by
        have := List.isEmpty_iff.mp he
        rw [this] at hlen
        exact List.eq_nil_of_length_eq_zero hlen
      rw [this, List.append_nil] at hfiles
      exact hfiles
    · rw [if_neg he]
      rw [partsFiles_append]
      simpa [partsFiles, flushPart] using hfiles
  refine ⟨hmain, fun hnd f hf => ?_⟩
  rw [hmain]
  exact List.count_eq_one_of_mem hnd hf

/-- Claim C3 witness: the concrete split run `c23cfg`/`c23input` distributes
the three distinct eligible files across its parts exactly once each, in
order. -/
theorem claim_C3_witness :
    c23cfg.split = true ∧
    partsFiles (runAssembler c23cfg c23input) = c23input.map Prod.fst ∧
    (partsFiles (runAssembler c23cfg c23input)).count "b" = 1 :=
  ⟨by decide, (claim_C3 c23cfg c23input (by decide)).1,
   (claim_C3 c23cfg c23input (by decide)).2 (by decide) "b" (by decide)⟩

theorem runLoop_nonsplit (cfg : AsmConfig) (total : Nat)
    (hs : cfg.split = false) :
    ∀ (fs : List (String × String)) (st : AsmState),
      (runLoop cfg total st fs).partNum = st.partNum ∧
      (runLoop cfg total st fs).written = st.written ∧
      (runLoop cfg total st fs).curFiles
        = st.curFiles
            ++ (fs.map Prod.fst).take (nonsplitPrefixLen cfg.maxChars st.curLen fs) ∧
      (runLoop cfg total st fs).allFiles
        = st.allFiles
            ++ (fs.map Prod.fst).take (nonsplitPrefixLen cfg.maxChars st.curLen fs) ∧
      (runLoop cfg total st fs).curBlocks.length
        = st.curBlocks.length + nonsplitPrefixLen cfg.maxChars st.curLen fs := by
  intro fs
  induction fs with
  | nil =>
    intro st
    exact ⟨rfl, rfl, by simp [runLoop, nonsplitPrefixLen],
      by simp [runLoop, nonsplitPrefixLen], by simp [runLoop, nonsplitPrefixLen]⟩
  | cons pc rest ih =>
    intro st
    by_cases hov : st.curLen + (formatBlock pc.1 pc.2).length > cfg.maxChars
    · have hk : nonsplitPrefixLen cfg.maxChars st.curLen (pc :: rest) = 0 := by
        unfold nonsplitPrefixLen
        rw [if_pos hov]
      unfold runLoop
      unfold asmStep
      rw [if_pos hov, hs, hk]
      exact ⟨rfl, rfl, by simp, by simp, by simp⟩
    · have hk : nonsplitPrefixLen cfg.maxChars st.curLen (pc :: rest)
          = nonsplitPrefixLen cfg.maxChars
              (st.curLen + (formatBlock pc.1 pc.2).length) rest + 1 := by
        show (if st.curLen + (formatBlock pc.1 pc.2).length > cfg.maxChars then 0
              else nonsplitPrefixLen cfg.maxChars
                (st.curLen + (formatBlock pc.1 pc.2).length) rest + 1) = _
        rw [if_neg hov]
      unfold runLoop
      unfold asmStep
      rw [if_neg hov, hk]
      rcases ih (appendBlock st pc.1 pc.2) with ⟨hpn, hw, hcf, haf, hbl⟩
      refine ⟨?_, ?_, ?_, ?_, ?_⟩
      · rw [hpn]
        rfl
      · rw [hw]
        rfl
      · rw [hcf]
        simp [appendBlock]
      · rw [haf]
        simp [appendBlock]
      · rw [hbl]
        simp only [appendBlock, List.length_append, List.length_cons, List.length_nil]
        omega

/-- Claim C7 (amended): in non-split mode the emitted output is exactly
characterized by the greedy count `k = nonsplitPrefixLen` of leading blocks
that fit the budget (the loop appends blocks until the first one whose
addition would exceed `max_output_characters`, then breaks, so the
triggering file and all subsequent files are excluded).  When `k = 0` — the
very first block already overflows — no part is written at all, refuting
the claim's "exactly one part" there.  When `k ≥ 1`, exactly one part is
flushed, holding precisely the first `k` eligible files; it is marked
truncated exactly when it holds fewer files than are eligible, and its
truncation warning then states both the number of files in the part and the
total number of eligible files. -/
theorem claim_C7 (cfg : AsmConfig) (input : List (String × String))
    (hs : cfg.split = false) :
    (nonsplitPrefixLen cfg.maxChars cfg.initHeader.length input = 0 →
      runAssembler cfg input = []) ∧
    (nonsplitPrefixLen cfg.maxChars cfg.initHeader.length input ≠ 0 →
      ∃ part, runAssembler cfg input = [part] ∧
        part.files = (input.map Prod.fst).take
          (nonsplitPrefixLen cfg.maxChars cfg.initHeader.length input) ∧
        part.isTruncated = decide (part.files.length < input.length) ∧
        part.truncWarning =
          (if part.isTruncated then
            truncWarningText cfg.maxChars part.files.length input.length 1
           else "")) := by
  unfold runAssembler
  set st0 : AsmState :=
    { partNum := 1, curLen := cfg.initHeader.length, curBlocks := [],
      curFiles := [], allFiles := [], written := [] } with hst0
  set st := runLoop cfg input.length st0 input with hst
  rcases runLoop_nonsplit cfg input.length hs input st0 with ⟨hpn, hw, hcf, haf, hbl⟩
  rw [← hst] at hpn hw hcf haf hbl
  simp only [hst0, List.nil_append, List.length_nil, Nat.zero_add] at hpn hw hcf haf hbl
  constructor
  · intro hk
    have he : st.curBlocks.isEmpty = true := by
      rw [List.isEmpty_iff_length_eq_zero, hbl, hk]
    rw [if_pos he, hw]
  · intro hk
    have he : ¬ st.curBlocks.isEmpty = true := by
      rw [List.isEmpty_iff_length_eq_zero, hbl]
      exact hk
    refine ⟨_, by rw [if_neg he, hw, List.nil_append], ?_, ?_, ?_⟩
    · simp only [flushPart]
      exact hcf
    · simp only [flushPart, hs, Bool.not_false, Bool.and_true]
      rw [haf, ← hcf]
    · simp only [flushPart, hs, Bool.not_false, Bool.and_true]
      rw [← hst, hpn, haf, ← hcf]

/-- Claim C7 witness: in the concrete non-split run `c7wcfg`/`c7winput`
(three eligible files, the second block overflows) the greedy fit count is
1, so the theorem yields exactly one part, holding exactly the first file,
marked truncated, whose warning names 1 file in the part and 3 eligible
files. -/
theorem claim_C7_witness :
    c7wcfg.split = false ∧
    nonsplitPrefixLen c7wcfg.maxChars c7wcfg.initHeader.length c7winput = 1 ∧
    (∃ part, runAssembler c7wcfg c7winput = [part] ∧
      part.files = (c7winput.map Prod.fst).take
        (nonsplitPrefixLen c7wcfg.maxChars c7wcfg.initHeader.length c7winput) ∧
      part.isTruncated = decide (part.files.length < c7winput.length) ∧
      part.truncWarning =
        (if part.isTruncated then
          truncWarningText c7wcfg.maxChars part.files.length c7winput.length 1
         else "")) :=
  ⟨by decide, by decide,
   (claim_C7 c7wcfg c7winput (by decide)).2 (by decide)⟩


theorem notPrefix_of_head_ne (a : Char) (as cs : List Char)
    (h : ∀ d, cs.head? = some d → d ≠ a) : (a :: as).isPrefixOf cs = false := by
  cases cs with
  | nil => rfl
  | cons d ds =>
    have hd : d ≠ a := h d rfl
    rw [List.isPrefixOf_cons₂]
    simp [beq_eq_false_iff_ne.mpr (fun hh => hd hh.symm)]

theorem regexParse_units_tail (cs tail : List Char)
    (ht : (parseToks tail).isSome = true)
    (h1 : ∀ d, tail.head? = some d → d ≠ '*')
    (h2 : ∀ d, tail.head? = some d → d ≠ '(')
    (h3 : ∀ d, tail.head? = some d → d ≠ '^') :
    (regexParse ⟨unitsMap esc2 cs ++ tail⟩).isSome = true := by
  have hwrap : wrapMarker.isPrefixOf (unitsMap esc2 cs ++ tail) = false :=
    notPrefix_of_head_ne '(' _ _
      (units_esc2_append_head cs tail '(' (by decide) (by decide) (by decide) h2)
  have hcar : ['^'].isPrefixOf (unitsMap esc2 cs ++ tail) = false :=
    notPrefix_of_head_ne '^' [] _
      (units_esc2_append_head cs tail '^' (by decide) (by decide) (by decide) h3)
  unfold regexParse
  simp [hwrap, hcar, parse_units cs tail ht h1]

theorem regexParse_wrap_units (cs : List Char) :
    (regexParse ("(^|.*/)" ++ (⟨unitsMap esc2 cs⟩ : String))).isSome = true := by
  have hdata : ("(^|.*/)" ++ (⟨unitsMap esc2 cs⟩ : String)).data
      = wrapMarker ++ unitsMap esc2 cs := rfl
  have hpre : wrapMarker.isPrefixOf (wrapMarker ++ unitsMap esc2 cs) = true :=
    List.isPrefixOf_iff_prefix.mpr (List.prefix_append _ _)
  have hparse : (parseToks (unitsMap esc2 cs)).isSome = true := by
    have := parse_units cs [] (by rfl) (fun d hd => by cases hd)
    simpa using this
  unfold regexParse
  rw [hdata]
  simp only [hpre, if_true]
  rw [show (wrapMarker ++ unitsMap esc2 cs).drop 7 = unitsMap esc2 cs from
    List.drop_left' rfl]
  simpa using hparse


theorem buildPattern_body (l : String) :
    strReplace (strReplace (reEscape l) "\\*" ".*") "\\?" "." = ⟨unitsMap esc2 l.data⟩ := by
  have h1 : strReplace (reEscape l) "\\*" ".*" = ⟨unitsMap esc1 l.data⟩ := by
    show (⟨listReplaceAux '\\' ['*'] ['.', '*'] 0 (unitsMap esc0 l.data)⟩ : String) = _
    rw [replace_star]
  rw [h1]
  show (⟨listReplaceAux '\\' ['?'] ['.'] 0 (unitsMap esc1 l.data)⟩ : String) = _
  rw [replace_q]

theorem buildPattern_nonanchored (line : String)
    (h : strStarts (if strStarts line "!" then (⟨line.data.drop 1⟩ : String) else line)
          "/" = false) :
    (regexParse (buildPattern line).pattern).isSome = true := by
  set l2 : String :=
    if strStarts line "!" then (⟨line.data.drop 1⟩ : String) else line with hl2
  have hpat : (buildPattern line).pattern =
      (if strEnds l2 "/" then (⟨unitsMap esc2 l2.data⟩ : String) ++ ".*"
       else if !hasSlashChar l2 then "(^|.*/)" ++ (⟨unitsMap esc2 l2.data⟩ : String)
       else (⟨unitsMap esc2 l2.data⟩ : String)) := by
    simp only [buildPattern, ← hl2, buildPattern_body, h, if_false, Bool.false_eq_true]
  rw [hpat]
  by_cases hdir : strEnds l2 "/" = true
  · rw [if_pos hdir]
    have : ((⟨unitsMap esc2 l2.data⟩ : String) ++ ".*")
        = (⟨unitsMap esc2 l2.data ++ ['.', '*']⟩ : String) := rfl
    rw [this]
    apply regexParse_units_tail
    · rfl
    · intro d hd; injection hd with hd; subst hd; decide
    · intro d hd; injection hd with hd; subst hd; decide
    · intro d hd; injection hd with hd; subst hd; decide
  · rw [if_neg hdir]
    by_cases hsl : hasSlashChar l2 = true
    · rw [if_neg (by simp [hsl])]
      have : (⟨unitsMap esc2 l2.data⟩ : String)
          = (⟨unitsMap esc2 l2.data ++ []⟩ : String) := by simp
      rw [this]
      apply regexParse_units_tail
      · rfl
      · intro d hd; cases hd
      · intro d hd; cases hd
      · intro d hd; cases hd
    · rw [if_pos (by simp [Bool.not_eq_true] at hsl; simp [hsl])]
      exact regexParse_wrap_units l2.data

theorem compileSucceeds_nonanchored (lraw : String) (h : lineIsAnchored lraw = false) :
    compileSucceeds lraw = true := by
  unfold compileSucceeds
  cases hcl : compileLine lraw with
  | none => rfl
  | some r =>
    unfold compileLine at hcl
    dsimp only [] at hcl
    split at hcl
    · cases hcl
    · injection hcl with hcl
      subst hcl
      apply buildPattern_nonanchored
      unfold lineIsAnchored at h
      exact h


/-- Claim C9 (counterexample): the claim asserts that pattern compilation
never raises and that an uncompilable line becomes a no-op rule.  In fact
the line `/+` is processed (it is neither blank nor a comment), its built
pattern is `^+` — root anchoring strips the backslash that escaped the `+`,
leaving a dangling repeat — and `re.compile` rejects that pattern, so
`get_gitignore_patterns` aborts the run with an uncaught `re.error`; no
no-op fallback exists. -/
theorem claim_C9_counterexample :
    compileLine "/+" = some ⟨"^+", false⟩ ∧
    regexParse "^+" = none ∧
    gitignoreCompileOk ["/+"] = false := by
  decide

/-- Claim C9 (amended): pattern compilation never raises on any line that is
not root-anchored (its stripped, negation-stripped form does not begin with
`/`): after escaping, every produced pattern is a regex the compiler
accepts, so no no-op fallback is ever needed for such lines.  Root-anchored
lines, however, can produce an invalid pattern (see the counterexample) and
abort the run — there is no no-op fallback. -/
theorem claim_C9 (lines : List String)
    (h : ∀ l ∈ lines, lineIsAnchored l = false) :
    gitignoreCompileOk lines = true := by
  unfold gitignoreCompileOk
  rw [List.all_eq_true]
  intro l hl
  exact compileSucceeds_nonanchored l (h l hl)

/-- Claim C9 witness: a concrete ignore file with comments, blank lines,
wildcards, negation and a directory pattern — none root-anchored — compiles
without raising. -/
theorem claim_C9_witness :
    (∀ l ∈ c9lines, lineIsAnchored l = false) ∧
    gitignoreCompileOk c9lines = true :=
  ⟨by decide, claim_C9 c9lines (by decide)⟩

/-- Claim C4 (counterexample): the claim asserts that the rule compiled from
`build/` excludes the nested path `a/build/out.txt`; it does not.  The
compiled pattern is `build/.*`, `fullmatch` anchors it at the start of the
relative path, and the basename fallback is skipped because the pattern text
contains a slash. -/
theorem claim_C4_counterexample :
    isExcluded (getGitignorePatterns ["build/"]) "a/build/out.txt" = false := by
  decide

/-- Claim C4 (amended): for the single rule compiled from `build/`, exclusion
evaluation returns true for `build/` and `build/out.txt`, and false for both
`a/build/out.txt` (directory patterns match only from the start of the
relative path; no basename-anywhere matching applies because the compiled
pattern contains a slash) and `notbuild/out.txt`. -/
theorem claim_C4 :
    isExcluded (getGitignorePatterns ["build/"]) "build/" = true ∧
    isExcluded (getGitignorePatterns ["build/"]) "build/out.txt" = true ∧
    isExcluded (getGitignorePatterns ["build/"]) "a/build/out.txt" = false ∧
    isExcluded (getGitignorePatterns ["build/"]) "notbuild/out.txt" = false := by
  decide

/-- Claim C5 (counterexample): the claim asserts that the rule compiled from
`/dist` excludes `dist/x` and does not exclude `sub/dist`; both are wrong.
The compiled pattern is `^dist`, which does not match `dist/x` as a full
path, and — because the compiled pattern text contains no slash — the
basename fallback applies and matches the final segment of `sub/dist`. -/
theorem claim_C5_counterexample :
    isExcluded (getGitignorePatterns ["/dist"]) "dist/x" = false ∧
    isExcluded (getGitignorePatterns ["/dist"]) "sub/dist" = true := by
  decide

/-- Claim C5 (amended): for the single rule compiled from the root-anchored
line `/dist`, exclusion evaluation returns true for `dist`, false for
`dist/x` (no contents suffix is appended for a non-directory pattern; in a
full run such paths are still pruned because the walk never descends into
the excluded directory `dist`), and true for `sub/dist` (the compiled
pattern `^dist` contains no slash, so the basename fallback applies and
defeats the root anchoring). -/
theorem claim_C5 :
    isExcluded (getGitignorePatterns ["/dist"]) "dist" = true ∧
    isExcluded (getGitignorePatterns ["/dist"]) "dist/x" = false ∧
    isExcluded (getGitignorePatterns ["/dist"]) "sub/dist" = true := by
  decide

/-- Claim C6 (confirmed): negation rules override earlier matches.  With the
ordered rules `*.log`, `!keep.log`, the path `keep.log` is not excluded and
`other.log` is; with the rules `*.pyc`, `!important.pyc` and the candidates
`a.pyc`, `important.pyc`, `b.txt`, the eligible (non-excluded) list is
exactly `important.pyc`, `b.txt`. -/
theorem claim_C6 :
    isExcluded (getGitignorePatterns ["*.log", "!keep.log"]) "keep.log" = false ∧
    isExcluded (getGitignorePatterns ["*.log", "!keep.log"]) "other.log" = true ∧
    (["a.pyc", "important.pyc", "b.txt"].filter
      (fun p => !isExcluded (getGitignorePatterns ["*.pyc", "!important.pyc"]) p))
      = ["important.pyc", "b.txt"] := by
  decide

/-- Claim C10 (confirmed): the exclusion check unconditionally excludes any
path whose string contains the output filename's stem as a substring, the
generator script's own relative path, and every preamble document, before
any ignore rule is consulted. -/
theorem claim_C10 (cfg : IgnoreConfig) (p : String)
    (h : strContainsSub p (pathStem cfg.outputFilename) = true ∨
         p = cfg.scriptRelPath ∨ p ∈ cfg.preambleFiles) :
    shouldIgnore cfg p = true := by
  unfold shouldIgnore
  rcases h with h | h | h
  · simp [h]
  · subst h
    simp
  · simp [h]

/-- Claim C10 witness: with the default output name, the path
`x/project_context_old.md` contains the stem `project_context` and is
excluded, as are the script itself and `README.md`. -/
theorem claim_C10_witness :
    strContainsSub "x/project_context_old.md" (pathStem c10cfg.outputFilename) = true ∧
    shouldIgnore c10cfg "x/project_context_old.md" = true ∧
    shouldIgnore c10cfg "scripts/generate_context_markdown.py" = true ∧
    shouldIgnore c10cfg "README.md" = true :=
  ⟨by decide,
   claim_C10 c10cfg "x/project_context_old.md" (Or.inl (by decide)),
   claim_C10 c10cfg "scripts/generate_context_markdown.py" (Or.inr (Or.inl rfl)),
   claim_C10 c10cfg "README.md" (Or.inr (Or.inr (by decide)))⟩

/-- Claim C8 (confirmed): a file whose block size exactly equals the
remaining budget is appended to the current part — no rollover, no break,
same part number. -/
theorem claim_C8 (cfg : AsmConfig) (total : Nat) (st : AsmState)
    (p content : String)
    (h : st.curLen + (formatBlock p content).length = cfg.maxChars) :
    asmStep cfg total st (p, content) = some (appendBlock st p content) ∧
    (appendBlock st p content).partNum = st.partNum ∧
    (appendBlock st p content).curFiles = st.curFiles ++ [p] := by
  refine ⟨?_, rfl, rfl⟩
  have hng : ¬ (st.curLen + (formatBlock p content).length > cfg.maxChars) := by
    omega
  simp [asmStep, hng]

/-- Claim C8 witness: with budget 40, running length 8 and the 32-character
block of `("a", "xyz")`, the step appends to the current part. -/
theorem claim_C8_witness :
    c8st.curLen + (formatBlock "a" "xyz").length = c8cfg.maxChars ∧
    asmStep c8cfg 1 c8st ("a", "xyz") = some (appendBlock c8st "a" "xyz") :=
  ⟨by decide, (claim_C8 c8cfg 1 c8st "a" "xyz" (by decide)).1⟩

/-- Claim C1 (code bug, evaluation at the failing input): in the three-part
split run `c1cfg`/`c1input`, part 1 is written to the plain output filename
with no `_part_1` insertion and contains no part-position notice at all, and
part 2 carries the notice `This is Part 2 of 2` even though the run ends
with three parts; only the final part's notice reports the true total. -/
theorem claim_C1 :
    (runAssembler c1cfg c1input).length = 3 ∧
    ((runAssembler c1cfg c1input).map PartFile.filename)
      = ["output/project_context.md",
         "project_context_part_2.md",
         "project_context_part_3.md"] ∧
    ((runAssembler c1cfg c1input).map PartFile.headerWarning)
      = ["", partHeaderWarning 2 2, partHeaderWarning 3 3] ∧
    partHeaderWarning 2 2 ≠ partHeaderWarning 2 3 := by
  decide

/-- Claim C2 (counterexample): in the run `c2cfg`/`c2input` the continuation
header is longer than the budget, and the part that receives the deferred
block is finalized with a running count (72) exceeding the budget (5) by
far more than the size of the single 32-character block it holds. -/
theorem claim_C2_counterexample :
    ∃ part ∈ runAssembler c2cfg c2input,
      part.lenAtFlush > c2cfg.maxChars + maxBlockLen part.blocks := by
  decide

/-- Claim C7 (counterexample): the claim asserts that in non-split mode an
overflow flushes exactly one truncated part; but when the very first file's
block already exceeds the budget, the loop breaks with an empty content
list and no part is written at all. -/
theorem claim_C7_counterexample :
    c7cfg.split = false ∧
    c7cfg.initHeader.length + (formatBlock "a" "xyz").length > c7cfg.maxChars ∧
    c7input ≠ [] ∧
    runAssembler c7cfg c7input = [] := by
  decide

end ContextGen
